import Mathlib

/-!
Shallow embedding of `BookmarkServer.py` (a URI shortener): the mapping
store (`MEMORY`), the URI normalization helper (`auto_prefix` in the
source, called `normalize` by the spec), the liveness check (`check_uri`),
and the registration / lookup flows of `Shortener.do_POST` / `do_GET`.
The outbound HTTP world is a parameter `probe : GetRequest → ProbeResult`
supplied to each operation; everything else is translated directly from
the source, with the Python standard-library functions it calls
(`urllib.parse.urlparse`, `parse_qs`, `unquote`) modelled from CPython
3.11's `urllib/parse.py`.
-/

namespace BookmarkServer

/-- Exception kinds that `requests.get` can raise; all of them are
subclasses of `requests.RequestException`, the class caught by
`check_uri`. -/
inductive RequestFault where
  | timeout
  | connectionError
  | dnsFailure
  | connectionRefused
  | invalidURL
  | missingSchema
deriving DecidableEq

/-- Result of the outbound GET issued by `check_uri`: either an HTTP
response was received (with some status code) or the request failed with
an exception. -/
inductive ProbeResult where
  | response (status_code : Nat)
  | failure (fault : RequestFault)
deriving DecidableEq

/-- The argument record of an outbound `requests.get` call: HTTP method,
target URI, and the `timeout` keyword argument (`none` means the argument
was not passed, i.e. the requests library default of waiting without
bound). -/
structure GetRequest where
  method : String
  uri : String
  timeout : Option Nat
deriving DecidableEq

/-- `url[0].isascii() and url[0].isalpha()` of `urlsplit`: an ASCII
letter (`Char.isAlpha` covers exactly the ASCII letters). -/
def isAsciiAlpha (c : Char) : Bool :=
  c.isAlpha

/-- `scheme_chars` of `urllib/parse.py`: ASCII letters, digits, and
`+`, `-`, `.`. -/
def isSchemeChar (c : Char) : Bool :=
  isAsciiAlpha c || c.isDigit || c == '+' || c == '-' || c == '.'

/-- `urlsplit` first removes `_UNSAFE_URL_BYTES_TO_REMOVE = ['\t', '\r',
'\n']` from the URL. -/
def stripControl (cs : List Char) : List Char :=
  cs.filter (fun c => !(c == '\t' || c == '\r' || c == '\n'))

/-- Split a character list at the first occurrence of `sep`: `none` when
`sep` does not occur (Python `find` returning -1), otherwise the pieces
before and after the first `sep`. -/
def splitAtChar (sep : Char) : List Char → Option (List Char × List Char)
  | [] => none
  | c :: rest =>
    if c == sep then some ([], rest)
    else
      match splitAtChar sep rest with
      | some (pre, post) => some (c :: pre, post)
      | none => none

/-- The scheme component computed by CPython 3.11 `urlsplit`: after
stripping unsafe bytes, take the text before the first `:`; it is the
scheme (lowercased) when it is nonempty (`i > 0`), starts with an ASCII
letter, and consists of scheme characters only; otherwise the scheme is
empty. -/
def schemeOfChars (cs : List Char) : List Char :=
  match splitAtChar ':' (stripControl cs) with
  | some (pre, _) =>
    match pre with
    | [] => []
    | c0 :: _ =>
      if isAsciiAlpha c0 && pre.all isSchemeChar then pre.map Char.toLower
      else []
  | none => []

/-- `urlparse(u).scheme` as a string. -/
def urlparse_scheme (s : String) : String :=
  String.mk (schemeOfChars s.toList)

/-- The source's `auto_prefix` (the spec's `normalize`): parse the input
with `urlparse`; when the scheme component is empty, prepend `https://`,
otherwise return the input unchanged. A pure string transformation. -/
def auto_https (uri : String) : String :=
  if urlparse_scheme uri = "" then "https://" ++ uri else uri

/-- The GET request `check_uri` issues: `requests.get(final_uri)` where
`final_uri = auto_prefix(uri)`; no `timeout` keyword argument is passed,
so the `timeout` field is `none`. -/
def check_uri_request (uri : String) : GetRequest :=
  ⟨"GET", auto_https uri, none⟩

/-- The Python value `check_uri` returns: the integer
`req.status_code` when the request completed, or the literal `False`
when `requests.RequestException` was caught. -/
inductive CheckResult where
  | statusCode (code : Nat)
  | falseLit
deriving DecidableEq

/-- Python truthiness of `check_uri`'s return value, as consumed by
`if check_uri(longuri):` in `do_POST`: an int is truthy iff nonzero;
`False` is falsy. -/
def CheckResult.truthy : CheckResult → Bool
  | .statusCode code => code != 0
  | .falseLit => false

/-- `check_uri`: probe `auto_prefix(uri)` with a GET; return the status
code of a completed response, and `False` when the request raised
`requests.RequestException`. -/
def check_uri (probe : GetRequest → ProbeResult) (uri : String) : CheckResult :=
  match probe (check_uri_request uri) with
  | .response code => .statusCode code
  | .failure _ => .falseLit

/-- The `MEMORY` dict: an insertion-ordered association list from
shortname to long URI, with at most one entry per key. -/
abbrev Store := List (String × String)

/-- `MEMORY[k] = v`: Python dict assignment — update the existing entry
in place when the key is present, otherwise append a new entry. -/
def Store.put (st : Store) (k v : String) : Store :=
  if st.any (fun p => p.1 == k) then
    st.map (fun p => if p.1 == k then (k, v) else p)
  else st ++ [(k, v)]

/-- `MEMORY[k]` guarded by `k in MEMORY`: the value stored for `k`, if
any. -/
def Store.get (st : Store) (k : String) : Option String :=
  (st.find? (fun p => p.1 == k)).map Prod.snd

/-- Outcome of a registration attempt, as the spec names it:
`Accepted{uri}` (the 303 redirect branch of `do_POST`) or
`Rejected{uri}` (the 404 branch). -/
inductive Outcome where
  | accepted (uri : String)
  | rejected (uri : String)
deriving DecidableEq

/-- `register(shortname, rawLonguri)`: the core of `do_POST` after field
extraction — `longuri = auto_prefix(raw)`; when `check_uri(longuri)` is
truthy, store `MEMORY[shortname] = longuri` and accept; otherwise reject
leaving the store untouched. -/
def register (probe : GetRequest → ProbeResult) (st : Store)
    (shortname rawuri : String) : Outcome × Store :=
  let longuri := auto_https rawuri
  if (check_uri probe longuri).truthy then
    (Outcome.accepted longuri, st.put shortname longuri)
  else
    (Outcome.rejected longuri, st)

/-- Outcome of a lookup, as the spec names it: `Found{uri}` (the 303
redirect of `do_GET`) or `NotFound` (its 404 branch). -/
inductive ResolveOutcome where
  | found (uri : String)
  | notFound
deriving DecidableEq

/-- `resolve(shortname)`: the name branch of `do_GET` — redirect to
`MEMORY[name]` when the name is known, else 404. -/
def resolve (st : Store) (name : String) : ResolveOutcome :=
  match st.get name with
  | some uri => ResolveOutcome.found uri
  | none => ResolveOutcome.notFound

/-- `listAll()`: the listing rendered by the root branch of `do_GET` —
one `(key, MEMORY[key])` line for each key in `sorted(MEMORY.keys())`. -/
def listAll (st : Store) : List (String × String) :=
  ((st.map Prod.fst).mergeSort (fun a b => decide (a ≤ b))).map
    (fun k => (k, (st.get k).getD ""))

/-- One registration attempt observed by the server: the state of the
outbound HTTP world during the attempt, and the submitted fields. -/
structure RegEvent where
  probe : GetRequest → ProbeResult
  shortname : String
  rawuri : String

/-- Apply one registration attempt to the store. -/
def regStep (st : Store) (e : RegEvent) : Store :=
  (register e.probe st e.shortname e.rawuri).2

/-- Apply a sequence of registration attempts to the store. -/
def runRegs (st : Store) (evs : List RegEvent) : Store :=
  evs.foldl regStep st

/-- Whether a registration attempt's liveness check passes (so `register`
returns `Accepted`); this depends only on the probe and the URI, not on
the store. -/
def RegEvent.accepts (e : RegEvent) : Bool :=
  (check_uri e.probe (auto_https e.rawuri)).truthy

/-- Value of a hexadecimal digit, as accepted by `urllib.parse`'s
percent-decoder (`string.hexdigits`); written over the character's code
point (48–57 are the digits, 97–102 lowercase `a`–`f`, 65–70 uppercase
`A`–`F`). -/
def hexDigitVal (c : Char) : Option Nat :=
  let n := c.toNat
  if 48 ≤ n ∧ n ≤ 57 then some (n - 48)
  else if 97 ≤ n ∧ n ≤ 102 then some (n - 87)
  else if 65 ≤ n ∧ n ≤ 70 then some (n - 55)
  else none

/-- ASCII-level model of `urllib.parse.unquote`: each `%XX` with two hex
digits decodes to the character with that code; a `%` not followed by two
hex digits is passed through literally, as are all other characters.
(CPython additionally reassembles multi-byte UTF-8 sequences; no claim
depends on non-ASCII input.) -/
def unquoteChars : List Char → List Char
  | [] => []
  | '%' :: c1 :: c2 :: rest =>
    match hexDigitVal c1, hexDigitVal c2 with
    | some h1, some h2 => Char.ofNat (16 * h1 + h2) :: unquoteChars rest
    | _, _ => '%' :: unquoteChars (c1 :: c2 :: rest)
  | c :: rest => c :: unquoteChars rest

/-- `urllib.parse.unquote` on a string. -/
def unquote (s : String) : String :=
  String.mk (unquoteChars s.toList)

/-- `s.replace('+', ' ')`, the first step of form-value decoding in
`parse_qsl`. -/
def plusToSpace (s : String) : String :=
  String.mk (s.toList.map (fun c => if c == '+' then ' ' else c))

/-- Python `str.split(sep)` for a one-character separator: split at every
occurrence, keeping empty pieces. -/
def splitOnChar (sep : Char) : List Char → List (List Char)
  | [] => [[]]
  | c :: rest =>
    let r := splitOnChar sep rest
    if c == sep then [] :: r
    else
      match r with
      | h :: t => (c :: h) :: t
      | [] => [[c]]

/-- One `name_value` chunk of `parse_qsl` with the default
`keep_blank_values=False`, `strict_parsing=False`: an empty chunk is
skipped; a chunk without `=` is skipped; a chunk whose raw value is empty
is skipped; otherwise the name and value are decoded with
`.replace('+', ' ')` followed by `unquote`. -/
def qsPair (chunk : String) : Option (String × String) :=
  if chunk = "" then none
  else
    match splitAtChar '=' chunk.toList with
    | none => none
    | some (name, rawval) =>
      if rawval = [] then none
      else some (unquote (plusToSpace (String.mk name)),
                 unquote (plusToSpace (String.mk rawval)))

/-- `urllib.parse.parse_qsl(qs)` with default arguments: split on `&`
(`qs.split(separator) if qs else []`) and decode each chunk. -/
def parse_qsl (qs : String) : List (String × String) :=
  if qs = "" then []
  else ((splitOnChar '&' qs.toList).map String.mk).filterMap qsPair

/-- `parse_qs` accumulates `parse_qsl` pairs into a dict of lists:
append to the existing key's list, else add a new key. -/
def addParam (d : List (String × List String)) (k v : String) :
    List (String × List String) :=
  if d.any (fun p => p.1 == k) then
    d.map (fun p => if p.1 == k then (p.1, p.2 ++ [v]) else p)
  else d ++ [(k, [v])]

/-- `urllib.parse.parse_qs(qs)` with default arguments. -/
def parse_qs (qs : String) : List (String × List String) :=
  (parse_qsl qs).foldl (fun d p => addParam d p.1 p.2) []

/-- `k in params` / `params[k]`: the value list stored for `k`, if
any. -/
def lookupParam (d : List (String × List String)) (k : String) :
    Option (List String) :=
  (d.find? (fun p => p.1 == k)).map Prod.snd

/-- The three responses `do_POST` can produce: the 400 missing-fields
error, the 303 redirect to the root page after a successful store, and
the 404 fetch-failure error naming the rejected URI. -/
inductive PostResponse where
  | badRequest
  | redirectRoot
  | fetchFailed (uri : String)
deriving DecidableEq

/-- `Shortener.do_POST` on a decoded request body: parse with
`parse_qs`; when either field is missing serve the 400 error without
touching the store; otherwise run the registration flow on the first
value of each field. (`parse_qs` never produces an empty value list, so
the catch-all arm is reached only when a key is absent.) -/
def do_POST (probe : GetRequest → ProbeResult) (st : Store) (body : String) :
    PostResponse × Store :=
  match lookupParam (parse_qs body) "longuri",
        lookupParam (parse_qs body) "shortname" with
  | some (lu :: _), some (sn :: _) =>
    match register probe st sn lu with
    | (Outcome.accepted _, st2) => (PostResponse.redirectRoot, st2)
    | (Outcome.rejected uri, st2) => (PostResponse.fetchFailed uri, st2)
  | _, _ => (PostResponse.badRequest, st)

/-- An HTTP world in which every target answers 200 OK. -/
def probeLive : GetRequest → ProbeResult :=
  fun _ => ProbeResult.response 200

/-- An HTTP world in which every request times out. -/
def probeDown : GetRequest → ProbeResult :=
  fun _ => ProbeResult.failure RequestFault.timeout

/-- An HTTP world in which every target answers 404 Not Found. -/
def probe404 : GetRequest → ProbeResult :=
  fun _ => ProbeResult.response 404

/-- An HTTP world in which every target answers 500. -/
def probe500 : GetRequest → ProbeResult :=
  fun _ => ProbeResult.response 500

theorem get_cons (a : String × String) (t : Store) (k : String) :
    Store.get (a :: t) k = if a.1 == k then some a.2 else Store.get t k := by
  unfold Store.get
  rcases h : (a.1 == k) with _ | _ <;> simp only [List.find?_cons, h] <;> rfl

theorem any_eq_false_forall {st : Store} {k : String}
    (h : st.any (fun p => p.1 == k) = false) : ∀ p ∈ st, (p.1 == k) = false := by
  intro p hp
  by_contra hc
  have ht : st.any (fun p => p.1 == k) = true :=
    List.any_eq_true.mpr ⟨p, hp, by simpa using hc⟩
  rw [ht] at h
  cases h

theorem get_map_update_self (st : Store) (k v : String)
    (h : st.any (fun p => p.1 == k) = true) :
    Store.get (st.map (fun p => if p.1 == k then (k, v) else p)) k = some v := by
  induction st with
  | nil => cases h
  | cons a t ih =>
    simp only [List.map_cons]
    by_cases hk : (a.1 == k) = true
    · rw [if_pos hk, get_cons]
      simp
    · rw [if_neg hk, get_cons, if_neg hk]
      apply ih
      simp only [List.any_cons, Bool.or_eq_true] at h
      rcases h with h | h
      · exact absurd h hk
      · exact h

theorem get_map_update_other (st : Store) (k v k' : String) (hk : k' ≠ k) :
    Store.get (st.map (fun p => if p.1 == k then (k, v) else p)) k' =
      Store.get st k' := by
  induction st with
  | nil => rfl
  | cons a t ih =>
    simp only [List.map_cons]
    by_cases h : (a.1 == k) = true
    · rw [if_pos h, get_cons, get_cons]
      have h1 : (k == k') = false := beq_eq_false_iff_ne.mpr (Ne.symm hk)
      have h2 : (a.1 == k') = false := by
        rw [eq_of_beq h]; exact h1
      rw [h1, h2]
      simp only [Bool.false_eq_true, if_false]
      exact ih
    · rw [if_neg h, get_cons, get_cons]
      by_cases h2 : (a.1 == k') = true
      · rw [h2]
        simp
      · simp only [Bool.not_eq_true] at h2
        rw [h2]
        simp only [Bool.false_eq_true, if_false]
        exact ih

theorem get_append_self (st : Store) (k v : String)
    (h : st.any (fun p => p.1 == k) = false) :
    Store.get (st ++ [(k, v)]) k = some v := by
  induction st with
  | nil => simp [get_cons]
  | cons a t ih =>
    rw [List.cons_append, get_cons]
    have ha : (a.1 == k) = false := any_eq_false_forall h a (List.mem_cons_self a t)
    rw [ha]
    simp only [Bool.false_eq_true, if_false]
    apply ih
    have := any_eq_false_forall h
    rcases hr : t.any (fun p => p.1 == k) with _ | _
    · rfl
    · obtain ⟨p, hp, hpk⟩ := List.any_eq_true.mp hr
      have := this p (List.mem_cons_of_mem a hp)
      rw [this] at hpk
      cases hpk

theorem get_append_other (st : Store) (k v k' : String) (hk : k' ≠ k) :
    Store.get (st ++ [(k, v)]) k' = Store.get st k' := by
  induction st with
  | nil =>
    show Store.get [(k, v)] k' = none
    rw [get_cons]
    have h1 : (k == k') = false := beq_eq_false_iff_ne.mpr (Ne.symm hk)
    rw [h1]
    rfl
  | cons a t ih =>
    rw [List.cons_append, get_cons, get_cons]
    by_cases h2 : (a.1 == k') = true
    · rw [h2]
      simp
    · simp only [Bool.not_eq_true] at h2
      rw [h2]
      simp only [Bool.false_eq_true, if_false]
      exact ih

theorem get_put (st : Store) (k v k' : String) :
    Store.get (st.put k v) k' = if k' = k then some v else Store.get st k' := by
  unfold Store.put
  by_cases hany : st.any (fun p => p.1 == k) = true
  · rw [if_pos hany]
    by_cases hk : k' = k
    · subst hk
      rw [if_pos rfl]
      exact get_map_update_self st k' v hany
    · rw [if_neg hk]
      exact get_map_update_other st k v k' hk
  · rw [if_neg hany]
    by_cases hk : k' = k
    · subst hk
      rw [if_pos rfl]
      have hf : st.any (fun p => p.1 == k') = false := by
        cases hb : st.any (fun p => p.1 == k') with
        | false => rfl
        | true => exact absurd hb hany
      exact get_append_self st k' v hf
    · rw [if_neg hk]
      exact get_append_other st k v k' hk

theorem register_eq (probe : GetRequest → ProbeResult) (st : Store)
    (s u : String) :
    register probe st s u =
      if (check_uri probe (auto_https u)).truthy = true then
        (Outcome.accepted (auto_https u), st.put s (auto_https u))
      else (Outcome.rejected (auto_https u), st) := by
  rfl

theorem regStep_eq (st : Store) (e : RegEvent) :
    regStep st e =
      if e.accepts = true then st.put e.shortname (auto_https e.rawuri)
      else st := by
  unfold regStep RegEvent.accepts
  rw [register_eq]
  by_cases h : (check_uri e.probe (auto_https e.rawuri)).truthy = true
  · rw [if_pos h, if_pos h]
  · rw [if_neg h, if_neg h]

theorem get_runRegs_preserved (s : String) (w : Option String) :
    ∀ (evs : List RegEvent) (st : Store), Store.get st s = w →
      (∀ e ∈ evs, e.shortname ≠ s ∨ e.accepts = false) →
      Store.get (runRegs st evs) s = w := by
  intro evs
  induction evs with
  | nil =>
    intro st h _
    exact h
  | cons e t ih =>
    intro st h hl
    show Store.get (runRegs (regStep st e) t) s = w
    apply ih
    · rw [regStep_eq]
      rcases hl e (List.mem_cons_self e t) with hs | ha
      · by_cases hacc : e.accepts = true
        · rw [if_pos hacc, get_put]
          rw [if_neg (Ne.symm hs)]
          exact h
        · rw [if_neg hacc]
          exact h
      · rw [ha]
        simp only [Bool.false_eq_true, if_false]
        exact h
    · intro e2 he2
      exact hl e2 (List.mem_cons_of_mem e he2)

theorem not_successful_of_not_and {e : RegEvent} {s : String}
    (h : ¬(e.shortname = s ∧ e.accepts = true)) :
    e.shortname ≠ s ∨ e.accepts = false := by
  by_cases hs : e.shortname = s
  · right
    cases hb : e.accepts with
    | false => rfl
    | true => exact absurd ⟨hs, hb⟩ h
  · left
    exact hs

theorem registered_value {probe : GetRequest → ProbeResult} {st : Store}
    {s u v : String} (h : (register probe st s u).1 = Outcome.accepted v) :
    v = auto_https u ∧ (register probe st s u).2 = st.put s (auto_https u) := by
  rw [register_eq] at h ⊢
  by_cases hc : (check_uri probe (auto_https u)).truthy = true
  · rw [if_pos hc] at h ⊢
    refine ⟨?_, rfl⟩
    exact (Outcome.accepted.inj h).symm
  · rw [if_neg hc] at h
    cases h

theorem keys_map_update (st : Store) (k v : String) :
    (st.map (fun p => if p.1 == k then (k, v) else p)).map Prod.fst =
      st.map Prod.fst := by
  rw [List.map_map]
  apply List.map_congr_left
  intro p _
  by_cases h : (p.1 == k) = true
  · simp only [Function.comp_apply, if_pos h]
    exact (eq_of_beq h).symm
  · simp only [Function.comp_apply, if_neg h]

theorem nodup_keys_put (st : Store) (k v : String)
    (h : (st.map Prod.fst).Nodup) : ((st.put k v).map Prod.fst).Nodup := by
  unfold Store.put
  by_cases hany : st.any (fun p => p.1 == k) = true
  · rw [if_pos hany, keys_map_update]
    exact h
  · rw [if_neg hany, List.map_append]
    have hf : st.any (fun p => p.1 == k) = false := by
      cases hb : st.any (fun p => p.1 == k) with
      | false => rfl
      | true => exact absurd hb hany
    refine List.Nodup.append h (List.nodup_singleton k) ?_
    intro a ha hb
    simp only [List.map_cons, List.map_nil, List.mem_singleton] at hb
    subst hb
    obtain ⟨p, hp, hpk⟩ := List.mem_map.mp ha
    have := any_eq_false_forall hf p hp
    rw [hpk] at this
    simp at this

theorem nodup_keys_regStep (st : Store) (e : RegEvent)
    (h : (st.map Prod.fst).Nodup) : ((regStep st e).map Prod.fst).Nodup := by
  rw [regStep_eq]
  by_cases hacc : e.accepts = true
  · rw [if_pos hacc]
    exact nodup_keys_put st e.shortname (auto_https e.rawuri) h
  · rw [if_neg hacc]
    exact h

theorem nodup_keys_runRegs :
    ∀ (evs : List RegEvent) (st : Store), (st.map Prod.fst).Nodup →
      ((runRegs st evs).map Prod.fst).Nodup := by
  intro evs
  induction evs with
  | nil =>
    intro st h
    exact h
  | cons e t ih =>
    intro st h
    exact ih (regStep st e) (nodup_keys_regStep st e h)

theorem unquoteChars_ne_nil : ∀ cs : List Char, cs ≠ [] → unquoteChars cs ≠ [] := by
  intro cs h
  unfold unquoteChars
  split
  · exact absurd rfl h
  · split <;> simp
  · simp

theorem string_mk_ne_empty {cs : List Char} (h : cs ≠ []) : String.mk cs ≠ "" := by
  intro he
  have : cs = [] := congrArg String.data he
  exact h this

theorem string_toList_ne_nil {s : String} (h : s ≠ "") : s.toList ≠ [] := by
  intro he
  apply h
  cases s with
  | mk data =>
    have : data = [] := he
    rw [this]

theorem unquote_ne_empty {s : String} (h : s ≠ "") : unquote s ≠ "" :=
  string_mk_ne_empty (unquoteChars_ne_nil s.toList (string_toList_ne_nil h))

theorem plusToSpace_ne_empty {s : String} (h : s ≠ "") : plusToSpace s ≠ "" := by
  apply string_mk_ne_empty
  intro he
  exact string_toList_ne_nil h (List.map_eq_nil_iff.mp he)

theorem qsPair_val_ne_empty {chunk : String} {p : String × String}
    (h : qsPair chunk = some p) : p.2 ≠ "" := by
  unfold qsPair at h
  split at h
  · cases h
  · split at h
    · cases h
    · split at h
      · cases h
      · rename_i rawval hne
        have hp := (Option.some.inj h).symm
        rw [hp]
        exact unquote_ne_empty (plusToSpace_ne_empty (string_mk_ne_empty hne))

theorem parse_qsl_val_ne_empty (qs : String) :
    ∀ p ∈ parse_qsl qs, p.2 ≠ "" := by
  intro p hp
  unfold parse_qsl at hp
  split at hp
  · cases hp
  · obtain ⟨chunk, _, hc⟩ := List.mem_filterMap.mp hp
    exact qsPair_val_ne_empty hc

theorem addParam_vals {d : List (String × List String)} {k v : String}
    (hd : ∀ q ∈ d, ∀ x ∈ q.2, x ≠ "") (hv : v ≠ "") :
    ∀ q ∈ addParam d k v, ∀ x ∈ q.2, x ≠ "" := by
  intro q hq x hx
  unfold addParam at hq
  split at hq
  · obtain ⟨p, hp, hpq⟩ := List.mem_map.mp hq
    by_cases hk : (p.1 == k) = true
    · rw [if_pos hk] at hpq
      rw [← hpq] at hx
      rcases List.mem_append.mp hx with hx | hx
      · exact hd p hp x hx
      · rw [List.mem_singleton.mp hx]
        exact hv
    · rw [if_neg hk] at hpq
      rw [← hpq] at hx
      exact hd p hp x hx
  · rcases List.mem_append.mp hq with hq | hq
    · exact hd q hq x hx
    · rw [List.mem_singleton.mp hq] at hx
      simp only [List.mem_singleton] at hx
      rw [hx]
      exact hv

theorem foldl_addParam_vals (ps : List (String × String)) :
    ∀ d, (∀ q ∈ d, ∀ x ∈ q.2, x ≠ "") → (∀ p ∈ ps, p.2 ≠ "") →
      ∀ q ∈ ps.foldl (fun d p => addParam d p.1 p.2) d, ∀ x ∈ q.2, x ≠ "" := by
  induction ps with
  | nil =>
    intro d hd _
    exact hd
  | cons p t ih =>
    intro d hd hps
    apply ih
    · exact addParam_vals hd (hps p (List.mem_cons_self p t))
    · intro p2 hp2
      exact hps p2 (List.mem_cons_of_mem p hp2)

theorem parse_qs_vals_ne_empty (qs : String) :
    ∀ q ∈ parse_qs qs, ∀ v ∈ q.2, v ≠ "" := by
  unfold parse_qs
  exact foldl_addParam_vals (parse_qsl qs) [] (by intro q hq; cases hq)
    (parse_qsl_val_ne_empty qs)

theorem urlparse_scheme_https (u : String) :
    urlparse_scheme ("https://" ++ u) = "https" := by
  have hdata : ("https://" ++ u).toList =
      'h' :: 't' :: 't' :: 'p' :: 's' :: ':' :: '/' :: '/' :: u.toList := by
    simp [String.toList]
  unfold urlparse_scheme
  rw [hdata]
  simp [schemeOfChars, stripControl, splitAtChar, isAsciiAlpha, isSchemeChar]

/-- C1: the claim says a probe that completes with a status code other
than 200 is classified dead, making `register` return `Rejected` without
mutating the store. The code instead returns `req.status_code` from
`check_uri` (truthy for any completed response, contradicting
`check_uri`'s own docstring), so a 404 response is treated as live: here
`register` returns `Accepted` and writes the mapping. -/
theorem C1_nonsuccess_status_accepted :
    register probe404 [] "name" "example.com" =
      (Outcome.accepted "https://example.com",
       [("name", "https://example.com")]) := by
  decide

/-- C2: after `register(s, u)` returns `Accepted`, `resolve(s)` returns
`Found{normalize(u)}` — the stored value is exactly the normalized URI —
and this persists through any further registration attempts as long as
none of them is a successful `register(s, _)`. -/
theorem C2_accepted_resolve_found (probe : GetRequest → ProbeResult)
    (st : Store) (s u : String) (evs : List RegEvent)
    (hacc : ∃ v, (register probe st s u).1 = Outcome.accepted v)
    (hlater : ∀ e ∈ evs, ¬(e.shortname = s ∧ e.accepts = true)) :
    resolve (runRegs (register probe st s u).2 evs) s =
      ResolveOutcome.found (auto_https u) := by
  obtain ⟨v, hv⟩ := hacc
  obtain ⟨-, hst⟩ := registered_value hv
  rw [hst]
  have hg := get_runRegs_preserved s (some (auto_https u)) evs
    (st.put s (auto_https u))
    (by rw [get_put, if_pos rfl])
    (fun e he => not_successful_of_not_and (hlater e he))
  unfold resolve
  rw [hg]

theorem C2_witness :
    resolve (runRegs (register probeLive [] "golang" "golang.org").2
        [⟨probeDown, "golang", "down.example"⟩,
         ⟨probeLive, "other", "other.example"⟩]) "golang" =
      ResolveOutcome.found (auto_https "golang.org") :=
  C2_accepted_resolve_found probeLive [] "golang" "golang.org"
    [⟨probeDown, "golang", "down.example"⟩,
     ⟨probeLive, "other", "other.example"⟩]
    ⟨"https://golang.org", by decide⟩
    (by
      intro e he
      simp only [List.mem_cons, List.not_mem_nil, or_false] at he
      rcases he with rfl | rfl
      · intro hc
        exact absurd hc.2 (by decide)
      · intro hc
        exact absurd hc.1 (by decide))

/-- C3: the claim says any probe failure — including a non-success
status — leaves `register` rejecting and the store untouched, so a prior
mapping for the shortname survives. Because `check_uri` returns the raw
`status_code` (truthy for any completed response), a 500 response is
treated as live: the registration is accepted and the prior mapping for
`"s"` is overwritten. -/
theorem C3_nonsuccess_status_overwrites :
    register probe500 [("s", "https://old.example")] "s" "new.example" =
      (Outcome.accepted "https://new.example",
       [("s", "https://new.example")]) := by
  decide

/-- C4: the claim says every liveness probe is a GET request executed
with a bounded (finite) timeout. The request `check_uri` issues is indeed
a GET, but `requests.get(final_uri)` is called without a `timeout`
argument (`timeout = none`), i.e. the requests-library default of
waiting without bound — there is no finite timeout. -/
theorem C4_probe_get_without_timeout (uri : String) :
    (check_uri_request uri).method = "GET" ∧
    (check_uri_request uri).timeout = none :=
  ⟨rfl, rfl⟩

/-- C5: normalization is idempotent —
`normalize(normalize(u)) = normalize(u)` for every input string, where
`normalize` is the source's `auto_prefix`. -/
theorem C5_normalize_idempotent (u : String) :
    auto_https (auto_https u) = auto_https u := by
  by_cases h : urlparse_scheme u = ""
  · have h1 : auto_https u = "https://" ++ u := by
      simp [auto_https, h]
    rw [h1]
    simp [auto_https, urlparse_scheme_https u]
  · simp [auto_https, h]

/-- C6: normalization adds a scheme only when absent — every input whose
parse yields an empty scheme gets `https://` prepended, every input that
already has a scheme is returned unchanged, and in particular
`normalize("example.com") = "https://example.com"` and
`normalize("http://example.com") = "http://example.com"`. (In this
embedding `auto_https` is a pure function — it performs no I/O.) -/
theorem C6_normalize_scheme_only_when_absent :
    (∀ u, urlparse_scheme u = "" → auto_https u = "https://" ++ u) ∧
    (∀ u, urlparse_scheme u ≠ "" → auto_https u = u) ∧
    auto_https "example.com" = "https://example.com" ∧
    auto_https "http://example.com" = "http://example.com" := by
  refine ⟨fun u h => by simp [auto_https, h],
    fun u h => by simp [auto_https, h], by decide, by decide⟩

theorem C6_witness :
    auto_https "golang.org" = "https://" ++ "golang.org" :=
  C6_normalize_scheme_only_when_absent.1 "golang.org" (by decide)

/-- C7: in every reachable state of the store, the listing rendered by
the root page (`listAll`) is sorted by shortname in ascending order and
never contains two entries with the same shortname. -/
theorem C7_listAll_sorted_unique (evs : List RegEvent) :
    ((listAll (runRegs [] evs)).map Prod.fst).Pairwise (fun a b => a ≤ b) ∧
    ((listAll (runRegs [] evs)).map Prod.fst).Nodup := by
  have hkeys : (listAll (runRegs [] evs)).map Prod.fst =
      ((runRegs [] evs).map Prod.fst).mergeSort (fun a b => decide (a ≤ b)) := by
    unfold listAll
    have hcomp : (Prod.fst ∘ fun k => (k, (Store.get (runRegs [] evs) k).getD "")) =
        id := rfl
    rw [List.map_map, hcomp, List.map_id]
  constructor
  · rw [hkeys]
    have htrans : ∀ a b c : String, decide (a ≤ b) = true →
        decide (b ≤ c) = true → decide (a ≤ c) = true := by
      intro a b c hab hbc
      simp only [decide_eq_true_eq] at hab hbc ⊢
      exact le_trans hab hbc
    have htotal : ∀ a b : String, (decide (a ≤ b) || decide (b ≤ a)) = true := by
      intro a b
      simp only [Bool.or_eq_true, decide_eq_true_eq]
      exact le_total a b
    have hs := List.sorted_mergeSort htrans htotal ((runRegs [] evs).map Prod.fst)
    exact hs.imp (fun h => by simpa using h)
  · rw [hkeys]
    exact (List.mergeSort_perm ((runRegs [] evs).map Prod.fst) _).nodup_iff.mpr
      (nodup_keys_runRegs evs [] (by simp))

/-- C8: a shortname that has never been the subject of a successful
registration resolves to `NotFound`. -/
theorem C8_unregistered_resolves_notFound (s : String) (evs : List RegEvent)
    (h : ∀ e ∈ evs, ¬(e.shortname = s ∧ e.accepts = true)) :
    resolve (runRegs [] evs) s = ResolveOutcome.notFound := by
  have hg := get_runRegs_preserved s none evs [] rfl
    (fun e he => not_successful_of_not_and (h e he))
  unfold resolve
  rw [hg]

theorem C8_witness :
    resolve (runRegs []
        [⟨probeDown, "bad", "nonexistent.invalid.example"⟩,
         ⟨probeLive, "good", "golang.org"⟩]) "bad" =
      ResolveOutcome.notFound :=
  C8_unregistered_resolves_notFound "bad"
    [⟨probeDown, "bad", "nonexistent.invalid.example"⟩,
     ⟨probeLive, "good", "golang.org"⟩]
    (by
      intro e he
      simp only [List.mem_cons, List.not_mem_nil, or_false] at he
      rcases he with rfl | rfl
      · intro hc
        exact absurd hc.2 (by decide)
      · intro hc
        exact absurd hc.1 (by decide))

/-- C9: when the probe raises (any `requests.RequestException`:
timeout, DNS failure, connection refused, malformed URI), the fault is
caught inside `check_uri` and collapsed to the falsy `False` return —
the dead classification — and `register` returns its declared `Rejected`
outcome with the store untouched; no exception propagates. -/
theorem C9_probe_fault_collapsed_to_dead (probe : GetRequest → ProbeResult)
    (st : Store) (s u : String) (fault : RequestFault)
    (h : probe (check_uri_request (auto_https u)) = ProbeResult.failure fault) :
    check_uri probe (auto_https u) = CheckResult.falseLit ∧
    register probe st s u = (Outcome.rejected (auto_https u), st) := by
  have hc : check_uri probe (auto_https u) = CheckResult.falseLit := by
    unfold check_uri
    rw [h]
  refine ⟨hc, ?_⟩
  rw [register_eq, hc]
  rfl

theorem C9_witness :
    check_uri probeDown (auto_https "nonexistent.invalid.example") =
      CheckResult.falseLit ∧
    register probeDown [] "bad" "nonexistent.invalid.example" =
      (Outcome.rejected (auto_https "nonexistent.invalid.example"), []) :=
  C9_probe_fault_collapsed_to_dead probeDown [] "bad"
    "nonexistent.invalid.example" RequestFault.timeout rfl

/-- C10 as stated is false: a body can carry a `shortname` field with an
empty value and still not take the 400 branch, because another
occurrence of the same field carries a nonempty value. With
`"shortname=&shortname=a&longuri=b"` the empty occurrence is dropped but
`parse_qs` still has `shortname -> ["a"]`, so the probe is issued and
the store is mutated. -/
theorem C10_counterexample_duplicate_field :
    do_POST probeLive [] "shortname=&shortname=a&longuri=b" =
      (PostResponse.redirectRoot, [("a", "https://b")]) := by
  decide

/-- C10 (amended): every empty-valued field occurrence is dropped by
`parse_qs`, so no empty-string value ever reaches the Validator or the
Store through `do_POST`; and whenever the `shortname` or `longuri` key
is consequently absent from the parsed params (in particular when the
body carries no other nonempty-valued occurrence of that field), the
request takes the missing-fields 400 branch: the outcome is the same for
every probe — no probe is consulted — and the store is unchanged. -/
theorem C10_empty_value_dropped (body : String) (st : Store)
    (probe : GetRequest → ProbeResult) :
    (∀ q ∈ parse_qs body, ∀ v ∈ q.2, v ≠ "") ∧
    ((lookupParam (parse_qs body) "shortname" = none ∨
        lookupParam (parse_qs body) "longuri" = none) →
      do_POST probe st body = (PostResponse.badRequest, st)) := by
  refine ⟨parse_qs_vals_ne_empty body, fun h => ?_⟩
  unfold do_POST
  rcases h with h | h
  · rw [h]
    rcases hlu : lookupParam (parse_qs body) "longuri" with _ | lus
    · rfl
    · rcases lus with _ | ⟨lu, lr⟩
      · rfl
      · rfl
  · rw [h]

theorem C10_witness :
    do_POST probeLive [("keep", "https://kept.example")] "shortname=&longuri=x" =
      (PostResponse.badRequest, [("keep", "https://kept.example")]) :=
  (C10_empty_value_dropped "shortname=&longuri=x"
      [("keep", "https://kept.example")] probeLive).2 (Or.inl (by decide))

end BookmarkServer
